import Mathlib

/-!
Shallow embedding of the core file-editing logic of `src/MyChatBot.py`:
the single-file rewrite `edit_file_with_instructions`, the archive batch
processor `edit_zip_with_instructions`, and the re-packaging helper
`make_zip_from_dict`.  The remote completion service is modelled as an
opaque function carried by a `Client` value; the zip container library is
modelled by entry lists (names, directory flags, raw bytes, with a read
that may fail, mirroring a raising `zf.read`).
-/

set_option autoImplicit false

namespace MyChatBot

/-- A role-tagged chat message, as passed to the completion service. -/
structure Message where
  role : String
  content : String

/-- The external completion client.  `complete` models one call of
`client.chat.completions.create` followed by `resp.choices[0].message.content`:
`Except.error` models the call raising an exception, `Except.ok none` models a
successful call whose first message content is `None`, and
`Except.ok (some s)` a successful call returning text `s`. -/
structure Client where
  complete : List Message → Except String (Option String)

/-- The length ceiling `max_chars = 120000` of `edit_file_with_instructions`. -/
def max_chars : Nat := 120000

/-- The fixed system directive sent with every rewrite request
(the local `system_prompt` of `edit_file_with_instructions`). -/
def system_prompt : String :=
  "You are an expert editor. Given file content and user instructions, produce ONLY the fully edited file. Preserve the file\x27s format and structure. Do not add explanations or extra text."

/-- Whether a character is whitespace for Python `str.strip()`
(the ASCII whitespace characters together with the C1 separators and
next-line that `str.isspace` accepts). -/
def pyWhitespace (c : Char) : Bool :=
  c.toNat = 32 || (9 ≤ c.toNat && c.toNat ≤ 13) ||
  (28 ≤ c.toNat && c.toNat ≤ 31) || c.toNat = 133

/-- Embedding of Python `instructions.strip()`: drop leading and trailing
whitespace characters. -/
def py_strip (s : String) : String :=
  String.mk (((s.data.dropWhile pyWhitespace).reverse.dropWhile pyWhitespace).reverse)

/-- The user payload of a rewrite request (the local `user_prompt` of
`edit_file_with_instructions`): the stripped instruction followed by the
source text between explicit FILE markers. -/
def user_prompt (instructions file_text : String) : String :=
  py_strip instructions ++ "\n\n" ++
  "File content between <FILE> and </FILE>:\n" ++
  "<FILE>\n" ++
  file_text ++ "\n" ++
  "</FILE>\n" ++
  "Return only the edited file content."

/-- The full message list of one rewrite request. -/
def editMessages (instructions file_text : String) : List Message :=
  [⟨"system", system_prompt⟩, ⟨"user", user_prompt instructions file_text⟩]

/-- Embedding of `edit_file_with_instructions(file_text, instructions)`.
The module-level `client` global becomes an explicit `Option Client`
argument (`none` models the missing API key).  Every failure path of the
source returns the empty string: missing client, empty `file_text`
(Python `if not file_text`), `len(file_text) > max_chars`, a raised
exception from the remote call, and a `None` completion content
(`resp.choices[0].message.content or ""`). -/
def edit_file_with_instructions (client : Option Client)
    (file_text instructions : String) : String :=
  match client with
  | none => ""
  | some c =>
    if file_text = "" then ""
    else if file_text.length > max_chars then ""
    else
      match c.complete (editMessages instructions file_text) with
      | Except.ok content => content.getD ""
      | Except.error _ => ""

/-- One entry of a zip archive, as seen through the `zipfile` read
interface used by the source: its name in `zf.namelist()`, the
`zf.getinfo(name).is_dir()` flag, and the result of `zf.read(name)`
(`Except.error` models `zf.read` raising, e.g. on a corrupt entry). -/
structure ZipEntry where
  name : String
  isDir : Bool
  raw : Except String (List Nat)

/-- The replacement character U+FFFD used by decoding with fallback. -/
def replChar : Char := Char.ofNat 0xFFFD

/-- Whether a byte is a UTF-8 continuation byte (0x80 to 0xBF). -/
def isCont (b : Nat) : Bool := decide (0x80 ≤ b) && decide (b < 0xC0)

/-- Whether `b1` is a valid second byte after the lead byte `b` of a
multi-byte UTF-8 sequence (excluding overlong forms and surrogates,
as the strict UTF-8 codec does). -/
def cont2ok (b b1 : Nat) : Bool :=
  if b = 0xE0 then decide (0xA0 ≤ b1) && decide (b1 ≤ 0xBF)
  else if b = 0xED then decide (0x80 ≤ b1) && decide (b1 ≤ 0x9F)
  else if b = 0xF0 then decide (0x90 ≤ b1) && decide (b1 ≤ 0xBF)
  else if b = 0xF4 then decide (0x80 ≤ b1) && decide (b1 ≤ 0x8F)
  else isCont b1

/-- UTF-8 decoding with replacement, the semantics of
`raw.decode("utf-8", errors="replace")`: each maximal ill-formed
subsequence becomes one U+FFFD.  The function is total: the replace
error handler never raises. -/
def utf8ReplaceAux : List Nat → List Char
  | [] => []
  | b :: bs =>
    if b < 0x80 then Char.ofNat b :: utf8ReplaceAux bs
    else if b < 0xC2 then replChar :: utf8ReplaceAux bs
    else if b < 0xE0 then
      match bs with
      | [] => [replChar]
      | b1 :: bs1 =>
        if isCont b1 then
          Char.ofNat ((b - 0xC0) * 0x40 + (b1 - 0x80)) :: utf8ReplaceAux bs1
        else replChar :: utf8ReplaceAux (b1 :: bs1)
    else if b < 0xF0 then
      match bs with
      | [] => [replChar]
      | b1 :: bs1 =>
        if cont2ok b b1 then
          match bs1 with
          | [] => [replChar]
          | b2 :: bs2 =>
            if isCont b2 then
              Char.ofNat ((b - 0xE0) * 0x1000 + (b1 - 0x80) * 0x40 + (b2 - 0x80)) ::
                utf8ReplaceAux bs2
            else replChar :: utf8ReplaceAux (b2 :: bs2)
        else replChar :: utf8ReplaceAux (b1 :: bs1)
    else if b < 0xF5 then
      match bs with
      | [] => [replChar]
      | b1 :: bs1 =>
        if cont2ok b b1 then
          match bs1 with
          | [] => [replChar]
          | b2 :: bs2 =>
            if isCont b2 then
              match bs2 with
              | [] => [replChar]
              | b3 :: bs3 =>
                if isCont b3 then
                  Char.ofNat ((b - 0xF0) * 0x40000 + (b1 - 0x80) * 0x1000 +
                      (b2 - 0x80) * 0x40 + (b3 - 0x80)) :: utf8ReplaceAux bs3
                else replChar :: utf8ReplaceAux (b3 :: bs3)
            else replChar :: utf8ReplaceAux (b2 :: bs2)
        else replChar :: utf8ReplaceAux (b1 :: bs1)
    else replChar :: utf8ReplaceAux bs

/-- Embedding of `raw.decode("utf-8", errors="replace")`. -/
def decode_utf8_replace (raw : List Nat) : String :=
  String.mk (utf8ReplaceAux raw)

/-- Python dict assignment `d[k] = v` on an insertion-ordered mapping:
an existing key keeps its position and gets the new value, a new key is
appended at the end. -/
def dictInsert (m : List (String × String)) (k v : String) :
    List (String × String) :=
  if m.any (fun p => p.1 == k) then
    m.map (fun p => if p.1 == k then (k, v) else p)
  else m ++ [(k, v)]

/-- The loop body accumulator pass of `edit_zip_with_instructions`: walk
the entries of `zf.namelist()` in order, skip directory entries, skip
entries whose read raises (the outer `except` prints a warning and
continues), decode the rest with the total replacement decoder, rewrite,
and keep non-empty results (`if edited:`) in the ordered mapping. -/
def edit_zip_go (client : Option Client) (instructions : String) :
    List ZipEntry → List (String × String) → List (String × String)
  | [], acc => acc
  | e :: rest, acc =>
    if e.isDir then edit_zip_go client instructions rest acc
    else
      match e.raw with
      | Except.error _ => edit_zip_go client instructions rest acc
      | Except.ok raw =>
        let edited :=
          edit_file_with_instructions client (decode_utf8_replace raw) instructions
        if edited = "" then edit_zip_go client instructions rest acc
        else edit_zip_go client instructions rest (dictInsert acc e.name edited)

/-- Embedding of `edit_zip_with_instructions(zip_bytes, instructions)`:
the archive is given already parsed into its entry list (the zip binary
format itself is the external container interface), and the result is the
insertion-ordered `edited_files` mapping. -/
def edit_zip_with_instructions (client : Option Client)
    (archive : List ZipEntry) (instructions : String) :
    List (String × String) :=
  edit_zip_go client instructions archive []

/-- One entry written into a fresh archive by `zf.writestr(fname, content)`:
the name, the UTF-8 encoding of the text, and the timestamp `writestr`
stamps on the entry (the current time, so two packagings of the same
mapping may differ byte-wise). -/
structure WrittenEntry where
  name : String
  data : List Nat
  mtime : Nat

/-- UTF-8 encoding of one character. -/
def utf8EncodeChar (c : Char) : List Nat :=
  let n := c.toNat
  if n < 0x80 then [n]
  else if n < 0x800 then [0xC0 + n / 0x40, 0x80 + n % 0x40]
  else if n < 0x10000 then
    [0xE0 + n / 0x1000, 0x80 + (n / 0x40) % 0x40, 0x80 + n % 0x40]
  else
    [0xF0 + n / 0x40000, 0x80 + (n / 0x1000) % 0x40,
     0x80 + (n / 0x40) % 0x40, 0x80 + n % 0x40]

/-- UTF-8 encoding of a string, the `content.encode("utf-8")` step of
`zf.writestr` on text content. -/
def utf8Encode (s : String) : List Nat :=
  (s.data.map utf8EncodeChar).flatten

/-- Embedding of `make_zip_from_dict(file_dict)`: writes every pair of the
insertion-ordered mapping, in mapping order, into a fresh deflate
container.  `now` is the wall-clock time `writestr` stamps on each entry. -/
def make_zip_from_dict (now : Nat) (file_dict : List (String × String)) :
    List WrittenEntry :=
  file_dict.map (fun p => ⟨p.1, utf8Encode p.2, now⟩)

/-- Reading a produced container back: the list of entry names with their
stored bytes, in archive order. -/
def readEntries (archive : List WrittenEntry) : List (String × List Nat) :=
  archive.map (fun e => (e.name, e.data))

/-- The contribution of one archive entry to the batch result: nothing for
a directory entry, nothing when the read raises, nothing when the rewrite
of the decoded text is empty, and otherwise the pair of the entry name and
the rewritten text. -/
def entryResult (client : Option Client) (i : String) (e : ZipEntry) :
    Option (String × String) :=
  if e.isDir then none
  else
    match e.raw with
    | Except.error _ => none
    | Except.ok raw =>
      if edit_file_with_instructions client (decode_utf8_replace raw) i = "" then none
      else some (e.name, edit_file_with_instructions client (decode_utf8_replace raw) i)

/-- Whether an entry is a non-directory entry whose raw bytes can be read
(every such entry decodes to text, the decoder being total). -/
def readableFile (e : ZipEntry) : Bool :=
  !e.isDir &&
    (match e.raw with
     | Except.ok _ => true
     | Except.error _ => false)

/-! Auxiliary concrete values used to exercise the definitions. -/

/-- The client used to exercise C1: it raises exactly on the request whose
user payload carries the text of the middle entry, and succeeds with
non-empty content on everything else. -/
def c1Client : Client :=
  ⟨fun msgs =>
    if msgs.any (fun m => m.content == user_prompt "edit" "b") then
      Except.error "simulated failure"
    else Except.ok (some "EDITED")⟩

/-- A client whose remote call always succeeds with content `"X"`. -/
def okClient : Client := ⟨fun _ => Except.ok (some "X")⟩

/-- A client whose remote call always raises. -/
def errClient : Client := ⟨fun _ => Except.error "network"⟩

/-- A client whose remote call succeeds with the empty string as content. -/
def emptyClient : Client := ⟨fun _ => Except.ok (some "")⟩

/-- A source text one character above the length ceiling. -/
def bigText : String := String.mk (List.replicate 120001 'a')

/-- A source text of length exactly the ceiling `max_chars`. -/
def ceilingText : String := String.mk (List.replicate 120000 'a')

/-! Helper lemmas. -/

theorem mk_length (l : List Char) : (String.mk l).length = l.length := rfl

theorem mk_replicate_length (n : Nat) (c : Char) :
    (String.mk (List.replicate n c)).length = n := by
  rw [mk_length, List.length_replicate]

theorem mk_replicate_ne_empty (n : Nat) (c : Char) (h : n ≠ 0) :
    String.mk (List.replicate n c) ≠ "" := by
  intro hcontra
  have : (String.mk (List.replicate n c)).length = 0 := by rw [hcontra]; rfl
  rw [mk_replicate_length] at this
  exact h this

theorem edit_file_none (t i : String) :
    edit_file_with_instructions none t i = "" := rfl

theorem edit_file_some (c : Client) (t i : String) :
    edit_file_with_instructions (some c) t i =
      (if t = "" then ""
       else if t.length > max_chars then ""
       else
         match c.complete (editMessages i t) with
         | Except.ok content => content.getD ""
         | Except.error _ => "") := rfl

theorem edit_file_over_max (client : Option Client) (t i : String)
    (h : t.length > max_chars) : edit_file_with_instructions client t i = "" := by
  cases client with
  | none => rfl
  | some c =>
    rw [edit_file_some]
    by_cases he : t = ""
    · rw [if_pos he]
    · rw [if_neg he, if_pos h]

theorem edit_file_call (c : Client) (t i : String)
    (hne : t ≠ "") (hlen : ¬ t.length > max_chars) :
    edit_file_with_instructions (some c) t i =
      (match c.complete (editMessages i t) with
       | Except.ok content => content.getD ""
       | Except.error _ => "") := by
  rw [edit_file_some, if_neg hne, if_neg hlen]

/-! Claim theorems. -/

/-- Claim C2 as stated is false on the code at the boundary: a source text
of length exactly 120000 (at the ceiling) is not rejected; the remote call
is attempted and its result is returned. -/
theorem claim_C2_counterexample :
    ceilingText.length = 120000 ∧
    edit_file_with_instructions (some okClient) ceilingText "i" = "X" := by
  constructor
  · exact mk_replicate_length 120000 'a'
  · rw [edit_file_call okClient ceilingText "i"
      (mk_replicate_ne_empty 120000 'a' (by decide))
      (by rw [show ceilingText.length = 120000 from mk_replicate_length 120000 'a']
          decide)]
    rfl

/-- Claim C2 (amended): for every sourceText whose length is strictly above
the ceiling of 120000 characters (e.g. 120001), the rewrite returns the
empty result, for every client alike, so the remote completion call is
never attempted (the result does not depend on the client at all). -/
theorem claim_C2 (client : Option Client) (t i : String)
    (h : t.length > max_chars) :
    edit_file_with_instructions client t i = "" :=
  edit_file_over_max client t i h

/-- Witness for C2: a text of 120001 characters is rejected even by a
client that would return non-empty content. -/
theorem claim_C2_witness :
    bigText.length > max_chars ∧
    edit_file_with_instructions (some okClient) bigText "i" = "" := by
  have hlen : bigText.length > max_chars := by
    rw [show bigText.length = 120001 from mk_replicate_length 120001 'a']; decide
  exact ⟨hlen, claim_C2 (some okClient) bigText "i" hlen⟩

/-- Claim C4: the rewrite returns the empty result when the client is
absent (regardless of sourceText), when the text is empty, when the text
is oversized, and when the remote call errors; it never raises past the
component boundary (the embedding is a total function into `String`, as
every exception path of the source is caught and mapped to `""`). -/
theorem claim_C4 (t i : String) (c : Client) :
    edit_file_with_instructions none t i = "" ∧
    edit_file_with_instructions (some c) "" i = "" ∧
    (t.length > max_chars → edit_file_with_instructions (some c) t i = "") ∧
    ((∀ msgs, ∃ m, c.complete msgs = Except.error m) →
      edit_file_with_instructions (some c) t i = "") := by
  refine ⟨rfl, rfl, fun h => edit_file_over_max (some c) t i h, fun h => ?_⟩
  by_cases he : t = ""
  · simp [edit_file_with_instructions, he]
  · by_cases hlen : t.length > max_chars
    · exact edit_file_over_max (some c) t i hlen
    · obtain ⟨m, hm⟩ := h (editMessages i t)
      rw [edit_file_call c t i he hlen, hm]

/-- Witness for C4 at concrete inputs: absent client, empty text,
oversized text, and an always-raising client all yield the empty result. -/
theorem claim_C4_witness :
    edit_file_with_instructions none "x" "go" = "" ∧
    edit_file_with_instructions (some errClient) "" "go" = "" ∧
    edit_file_with_instructions (some errClient) bigText "go" = "" ∧
    edit_file_with_instructions (some errClient) "x" "go" = "" := by
  obtain ⟨h1, h2, h3, -⟩ := claim_C4 bigText "go" errClient
  obtain ⟨-, -, -, h4⟩ := claim_C4 "x" "go" errClient
  refine ⟨h1, h2, h3 ?_, h4 (fun msgs => ⟨"network", rfl⟩)⟩
  rw [show bigText.length = 120001 from mk_replicate_length 120001 'a']; decide

/-- Claim C5: on the success path (non-empty text under the ceiling,
configured client, remote call succeeding with text `out`) the rewrite
sends exactly one request, whose messages are the fixed system directive
plus the user payload of the stripped instruction followed by the source
text between the FILE markers, and returns `out` verbatim. -/
theorem claim_C5 (c : Client) (t i out : String)
    (hne : t ≠ "") (hlen : ¬ t.length > max_chars)
    (hcall : c.complete (editMessages i t) = Except.ok (some out)) :
    edit_file_with_instructions (some c) t i = out ∧
    editMessages i t =
      [⟨"system", "You are an expert editor. Given file content and user instructions, produce ONLY the fully edited file. Preserve the file\x27s format and structure. Do not add explanations or extra text."⟩,
       ⟨"user", py_strip i ++ "\n\n" ++ "File content between <FILE> and </FILE>:\n" ++
          "<FILE>\n" ++ t ++ "\n" ++ "</FILE>\n" ++
          "Return only the edited file content."⟩] := by
  exact ⟨by rw [edit_file_call c t i hne hlen, hcall]; rfl, rfl⟩

/-- Witness for C5: a concrete successful rewrite returns the remote
content verbatim and the request messages have the stated shape. -/
theorem claim_C5_witness :
    edit_file_with_instructions (some okClient) "hi" "fix" = "X" ∧
    editMessages "fix" "hi" =
      [⟨"system", "You are an expert editor. Given file content and user instructions, produce ONLY the fully edited file. Preserve the file\x27s format and structure. Do not add explanations or extra text."⟩,
       ⟨"user", py_strip "fix" ++ "\n\n" ++ "File content between <FILE> and </FILE>:\n" ++
          "<FILE>\n" ++ "hi" ++ "\n" ++ "</FILE>\n" ++
          "Return only the edited file content."⟩] :=
  claim_C5 okClient "hi" "fix" "X" (by decide) (by decide) rfl

/-! Characterization of the batch processor on archives with distinct
entry names (entries are identified by their name in the result mapping). -/

theorem edit_zip_go_nil (client : Option Client) (i : String)
    (acc : List (String × String)) : edit_zip_go client i [] acc = acc := rfl

theorem edit_zip_go_cons_dir (client : Option Client) (i : String)
    (e : ZipEntry) (rest : List ZipEntry) (acc : List (String × String))
    (hd : e.isDir = true) :
    edit_zip_go client i (e :: rest) acc = edit_zip_go client i rest acc := by
  simp [edit_zip_go, hd]

theorem edit_zip_go_cons_err (client : Option Client) (i : String)
    (e : ZipEntry) (rest : List ZipEntry) (acc : List (String × String))
    (m : String) (hd : e.isDir = false) (hr : e.raw = Except.error m) :
    edit_zip_go client i (e :: rest) acc = edit_zip_go client i rest acc := by
  simp [edit_zip_go, hd, hr]

theorem edit_zip_go_cons_ok (client : Option Client) (i : String)
    (e : ZipEntry) (rest : List ZipEntry) (acc : List (String × String))
    (raw : List Nat) (hd : e.isDir = false) (hr : e.raw = Except.ok raw) :
    edit_zip_go client i (e :: rest) acc =
      (if edit_file_with_instructions client (decode_utf8_replace raw) i = "" then
        edit_zip_go client i rest acc
       else
        edit_zip_go client i rest
          (dictInsert acc e.name
            (edit_file_with_instructions client (decode_utf8_replace raw) i))) := by
  simp [edit_zip_go, hd, hr]

theorem dictInsert_not_mem (m : List (String × String)) (k v : String)
    (h : ∀ p ∈ m, p.1 ≠ k) : dictInsert m k v = m ++ [(k, v)] := by
  have hany : m.any (fun p => p.1 == k) = false := by
    rw [List.any_eq_false]
    intro p hp
    simpa using h p hp
  simp [dictInsert, hany]

theorem edit_zip_go_append (client : Option Client) (i : String) :
    ∀ (arch : List ZipEntry) (acc : List (String × String)),
      (arch.map ZipEntry.name).Nodup →
      (∀ p ∈ acc, ∀ e ∈ arch, p.1 ≠ e.name) →
      edit_zip_go client i arch acc = acc ++ arch.filterMap (entryResult client i) := by
  intro arch
  induction arch with
  | nil => intro acc _ _; simp [edit_zip_go_nil]
  | cons e rest ih =>
    intro acc hnd hdisj
    have hnd' : (rest.map ZipEntry.name).Nodup :=
      (List.nodup_cons.1 (by simpa using hnd)).2
    have hnotin : e.name ∉ rest.map ZipEntry.name :=
      (List.nodup_cons.1 (by simpa using hnd)).1
    have hdisj' : ∀ p ∈ acc, ∀ e' ∈ rest, p.1 ≠ e'.name :=
      fun p hp e' he' => hdisj p hp e' (List.mem_cons_of_mem _ he')
    cases hd : e.isDir with
    | true =>
      rw [edit_zip_go_cons_dir client i e rest acc hd, ih acc hnd' hdisj']
      simp [List.filterMap_cons, entryResult, hd]
    | false =>
      cases hraw : e.raw with
      | error m =>
        rw [edit_zip_go_cons_err client i e rest acc m hd hraw, ih acc hnd' hdisj']
        simp [List.filterMap_cons, entryResult, hd, hraw]
      | ok raw =>
        rw [edit_zip_go_cons_ok client i e rest acc raw hd hraw]
        by_cases hed :
            edit_file_with_instructions client (decode_utf8_replace raw) i = ""
        · rw [if_pos hed, ih acc hnd' hdisj']
          simp [List.filterMap_cons, entryResult, hd, hraw, hed]
        · rw [if_neg hed]
          rw [dictInsert_not_mem acc e.name _ (fun p hp => hdisj p hp e (List.mem_cons_self _ _))]
          have hdisj'' :
              ∀ p ∈ acc ++ [(e.name,
                  edit_file_with_instructions client (decode_utf8_replace raw) i)],
                ∀ e' ∈ rest, p.1 ≠ e'.name := by
            intro p hp e' he'
            rcases List.mem_append.1 hp with hp' | hp'
            · exact hdisj' p hp' e' he'
            · have hp1 : p.1 = e.name := by
                have : p = (e.name,
                    edit_file_with_instructions client (decode_utf8_replace raw) i) := by
                  simpa using hp'
                rw [this]
              rw [hp1]
              intro hcontra
              exact hnotin (by rw [hcontra]; exact List.mem_map_of_mem ZipEntry.name he')
          rw [ih _ hnd' hdisj'']
          simp [List.filterMap_cons, entryResult, hd, hraw, hed, List.append_assoc]

theorem edit_zip_eq_filterMap (client : Option Client) (i : String)
    (arch : List ZipEntry) (hnd : (arch.map ZipEntry.name).Nodup) :
    edit_zip_with_instructions client arch i =
      arch.filterMap (entryResult client i) := by
  simpa [edit_zip_with_instructions] using
    edit_zip_go_append client i arch [] hnd (by simp)

theorem entryResult_some (client : Option Client) (i : String) {e : ZipEntry}
    {p : String × String} (h : entryResult client i e = some p) :
    e.isDir = false ∧ p.1 = e.name ∧ ∃ raw, e.raw = Except.ok raw := by
  cases hd : e.isDir with
  | true => simp [entryResult, hd] at h
  | false =>
    cases hraw : e.raw with
    | error m => simp [entryResult, hd, hraw] at h
    | ok raw =>
      by_cases hed :
          edit_file_with_instructions client (decode_utf8_replace raw) i = ""
      · simp [entryResult, hd, hraw, hed] at h
      · simp only [entryResult, hd, hraw, if_neg hed, if_false, Bool.false_eq_true,
          if_neg, Option.some.injEq] at h
        exact ⟨rfl, by rw [← h], ⟨raw, rfl⟩⟩

theorem map_filter_eq_filterMap {α β : Type} (f : α → β) (p : α → Bool) :
    ∀ l : List α, (l.filter p).map f =
      l.filterMap (fun a => if p a then some (f a) else none) := by
  intro l
  induction l with
  | nil => rfl
  | cons a l ih =>
    by_cases hp : p a
    · simp [List.filter_cons, List.filterMap_cons, hp, ih]
    · simp [List.filter_cons, List.filterMap_cons, hp, ih]

theorem filterMap_sublist_of_imp {α β : Type} (f g : α → Option β)
    (h : ∀ a b, f a = some b → g a = some b) :
    ∀ l : List α, (l.filterMap f).Sublist (l.filterMap g) := by
  intro l
  induction l with
  | nil => simp
  | cons a l ih =>
    rw [List.filterMap_cons, List.filterMap_cons]
    cases hfa : f a with
    | none =>
      cases hga : g a with
      | none => exact ih
      | some b => exact ih.cons b
    | some b => rw [h a b hfa]; exact ih.cons₂ b

/-- Claim C1: a rewrite failure on one entry of a 3-entry archive does not
abort the batch: when the middle entry fails (its rewrite is empty, as
happens when the remote call raises or returns empty content) and the
other two succeed with non-empty results, the result mapping has exactly
2 keys. -/
theorem claim_C1 (client : Option Client) (i : String)
    (e1 e2 e3 : ZipEntry) (r1 r2 r3 : List Nat)
    (hd1 : e1.isDir = false) (hd2 : e2.isDir = false) (hd3 : e3.isDir = false)
    (hr1 : e1.raw = Except.ok r1) (hr2 : e2.raw = Except.ok r2)
    (hr3 : e3.raw = Except.ok r3)
    (hn12 : e1.name ≠ e2.name) (hn13 : e1.name ≠ e3.name) (hn23 : e2.name ≠ e3.name)
    (hfail : edit_file_with_instructions client (decode_utf8_replace r2) i = "")
    (hok1 : edit_file_with_instructions client (decode_utf8_replace r1) i ≠ "")
    (hok3 : edit_file_with_instructions client (decode_utf8_replace r3) i ≠ "") :
    (edit_zip_with_instructions client [e1, e2, e3] i).length = 2 := by
  have hnd : (([e1, e2, e3].map ZipEntry.name)).Nodup := by
    simp [List.nodup_cons, hn12, hn13, hn23]
  rw [edit_zip_eq_filterMap client i [e1, e2, e3] hnd]
  simp [List.filterMap_cons, entryResult, hd1, hd2, hd3, hr1, hr2, hr3,
    hfail, hok1, hok3]

/-- Witness for C1: in a concrete 3-entry archive whose middle entry fails
at the remote call, the batch result has 2 keys. -/
theorem claim_C1_witness :
    (edit_zip_with_instructions (some c1Client)
      [⟨"a.txt", false, Except.ok [97]⟩, ⟨"b.txt", false, Except.ok [98]⟩,
       ⟨"c.txt", false, Except.ok [99]⟩] "edit").length = 2 :=
  claim_C1 (some c1Client) "edit"
    ⟨"a.txt", false, Except.ok [97]⟩ ⟨"b.txt", false, Except.ok [98]⟩
    ⟨"c.txt", false, Except.ok [99]⟩ [97] [98] [99]
    rfl rfl rfl rfl rfl rfl (by decide) (by decide) (by decide)
    (by decide) (by decide) (by decide)

/-- Claim C3: over an archive with distinct entry names, the batch result
has at most as many keys as there are readable non-directory entries, the
keys preserve the archive enumeration order among those entries, and no
key corresponds to an entry whose bytes could not be read. -/
theorem claim_C3 (client : Option Client) (i : String) (arch : List ZipEntry)
    (hnd : (arch.map ZipEntry.name).Nodup) :
    ((edit_zip_with_instructions client arch i).map Prod.fst).Sublist
      ((arch.filter readableFile).map ZipEntry.name) ∧
    (edit_zip_with_instructions client arch i).length ≤
      (arch.filter readableFile).length ∧
    ∀ e ∈ arch, (∀ r : List Nat, e.raw ≠ Except.ok r) →
      ∀ v : String, (e.name, v) ∉ edit_zip_with_instructions client arch i := by
  have hchar := edit_zip_eq_filterMap client i arch hnd
  have hsub : ((edit_zip_with_instructions client arch i).map Prod.fst).Sublist
      ((arch.filter readableFile).map ZipEntry.name) := by
    rw [hchar, List.map_filterMap, map_filter_eq_filterMap]
    apply filterMap_sublist_of_imp
    intro e b hb
    rw [Option.map_eq_some'] at hb
    obtain ⟨p, hp, hp1⟩ := hb
    obtain ⟨hd, hname, raw, hraw⟩ := entryResult_some client i hp
    rw [if_pos (by simp [readableFile, hd, hraw])]
    rw [← hp1, hname]
  refine ⟨hsub, ?_, ?_⟩
  · have := hsub.length_le
    simpa using this
  · intro e he hnotok v hmem
    rw [hchar] at hmem
    obtain ⟨e', he', hfe'⟩ := List.mem_filterMap.1 hmem
    obtain ⟨hd', hname', raw', hraw'⟩ := entryResult_some client i hfe'
    have hee : e' = e :=
      List.inj_on_of_nodup_map hnd he' he (by simpa using hname'.symm)
    exact hnotok raw' (hee ▸ hraw')

/-- Witness for C3: a concrete archive with one readable entry and one
entry whose read raises: the keys of the result are ordered below the
readable entry names, the size bound holds, and the unreadable entry
contributes no key. -/
theorem claim_C3_witness :
    ((edit_zip_with_instructions (some okClient)
        [⟨"good", false, Except.ok [97]⟩, ⟨"bad", false, Except.error "crc"⟩]
        "i").map Prod.fst).Sublist
      (([⟨"good", false, Except.ok [97]⟩,
         (⟨"bad", false, Except.error "crc"⟩ : ZipEntry)].filter
          readableFile).map ZipEntry.name) ∧
    (edit_zip_with_instructions (some okClient)
        [⟨"good", false, Except.ok [97]⟩, ⟨"bad", false, Except.error "crc"⟩]
        "i").length ≤
      ([⟨"good", false, Except.ok [97]⟩,
        (⟨"bad", false, Except.error "crc"⟩ : ZipEntry)].filter
          readableFile).length ∧
    ("bad", "X") ∉ edit_zip_with_instructions (some okClient)
        [⟨"good", false, Except.ok [97]⟩, ⟨"bad", false, Except.error "crc"⟩]
        "i" := by
  obtain ⟨h1, h2, h3⟩ := claim_C3 (some okClient) "i"
    [⟨"good", false, Except.ok [97]⟩, ⟨"bad", false, Except.error "crc"⟩]
    (by decide)
  exact ⟨h1, h2,
    h3 ⟨"bad", false, Except.error "crc"⟩
      (List.mem_cons_of_mem _ (List.mem_cons_self _ _))
      (fun r h => Except.noConfusion h) "X"⟩

/-- Claim C6: over an archive with distinct entry names, the batch result
is exactly the in-order filter of the archive: directory entries are
excluded, unreadable entries are excluded, and each remaining entry
contributes its name with its rewrite result precisely when that result is
non-empty, in archive enumeration order. -/
theorem claim_C6 (client : Option Client) (i : String) (arch : List ZipEntry)
    (hnd : (arch.map ZipEntry.name).Nodup) :
    edit_zip_with_instructions client arch i =
      arch.filterMap (fun e =>
        if e.isDir then none
        else
          match e.raw with
          | Except.error _ => none
          | Except.ok raw =>
            if edit_file_with_instructions client (decode_utf8_replace raw) i = ""
            then none
            else some (e.name,
              edit_file_with_instructions client (decode_utf8_replace raw) i)) :=
  edit_zip_eq_filterMap client i arch hnd

/-- Witness for C6: a concrete archive with a directory entry, a readable
file and an unreadable file maps to exactly the one successful pair. -/
theorem claim_C6_witness :
    edit_zip_with_instructions (some okClient)
      [⟨"d/", true, Except.ok []⟩, ⟨"a", false, Except.ok [97]⟩,
       ⟨"bad", false, Except.error "crc"⟩] "i" = [("a", "X")] :=
  (claim_C6 (some okClient) "i"
    [⟨"d/", true, Except.ok []⟩, ⟨"a", false, Except.ok [97]⟩,
     ⟨"bad", false, Except.error "crc"⟩] (by decide)).trans (by decide)

/-- Claim C7: packaging the two-entry mapping a.txt to hello and b.txt to
world and re-reading the produced container yields exactly those two
entries, with byte-identical UTF-8 content, whatever the write
timestamp. -/
theorem claim_C7 (now : Nat) :
    readEntries (make_zip_from_dict now [("a.txt", "hello"), ("b.txt", "world")]) =
      [("a.txt", utf8Encode "hello"), ("b.txt", utf8Encode "world")] ∧
    utf8Encode "hello" = [104, 101, 108, 108, 111] ∧
    utf8Encode "world" = [119, 111, 114, 108, 100] ∧
    decode_utf8_replace (utf8Encode "hello") = "hello" ∧
    decode_utf8_replace (utf8Encode "world") = "world" :=
  ⟨rfl, by decide, by decide, by decide, by decide⟩

/-- Claim C8: packaging the same mapping twice yields containers with
identical extracted name and byte content, even though the write
timestamps (and hence the compressed byte layout) may differ; the
extracted content is exactly the UTF-8 encoding of the mapping. -/
theorem claim_C8 (now1 now2 : Nat) (d : List (String × String)) :
    readEntries (make_zip_from_dict now1 d) =
      readEntries (make_zip_from_dict now2 d) ∧
    readEntries (make_zip_from_dict now1 d) =
      d.map (fun p => (p.1, utf8Encode p.2)) := by
  constructor <;>
    simp [readEntries, make_zip_from_dict, List.map_map, Function.comp]

/-- Claim C9: the replacement decoding of entry bytes is total, so a
non-directory entry whose bytes can be read is never skipped at the
decoding step: the batch outcome for such an entry is determined entirely
by the rewrite of its decoded text. -/
theorem claim_C9 (client : Option Client) (i : String) (e : ZipEntry)
    (raw : List Nat) (rest : List ZipEntry)
    (hd : e.isDir = false) (hr : e.raw = Except.ok raw) :
    edit_zip_with_instructions client (e :: rest) i =
      edit_zip_go client i rest
        (if edit_file_with_instructions client (decode_utf8_replace raw) i = ""
         then []
         else [(e.name,
              edit_file_with_instructions client (decode_utf8_replace raw) i)]) := by
  rw [show edit_zip_with_instructions client (e :: rest) i =
      edit_zip_go client i (e :: rest) [] from rfl]
  rw [edit_zip_go_cons_ok client i e rest [] raw hd hr]
  by_cases hed : edit_file_with_instructions client (decode_utf8_replace raw) i = ""
  · rw [if_pos hed, if_pos hed]
  · rw [if_neg hed, if_neg hed]
    rfl

/-- Witness for C9: an entry whose bytes are not valid UTF-8 (leading
0xFF) is still decoded, with replacement, and passed to the rewrite. -/
theorem claim_C9_witness :
    edit_zip_with_instructions (some okClient)
      [⟨"bin", false, Except.ok [255, 97]⟩] "i" =
      edit_zip_go (some okClient) "i" []
        (if edit_file_with_instructions (some okClient)
              (decode_utf8_replace [255, 97]) "i" = ""
         then []
         else [("bin",
              edit_file_with_instructions (some okClient)
                (decode_utf8_replace [255, 97]) "i")]) :=
  claim_C9 (some okClient) "i" ⟨"bin", false, Except.ok [255, 97]⟩ [255, 97] []
    rfl rfl

/-- Claim C10: a successful remote call whose first completion content is
None or the empty string makes the rewrite return the empty string, which
the batch processor treats identically to a remote error: the entry is
dropped, so at the public interface the two are indistinguishable. -/
theorem claim_C10 (c cerr : Client) (i : String) (e : ZipEntry) (raw : List Nat)
    (hd : e.isDir = false) (hr : e.raw = Except.ok raw)
    (hne : decode_utf8_replace raw ≠ "")
    (hlen : ¬ (decode_utf8_replace raw).length > max_chars)
    (hc : c.complete (editMessages i (decode_utf8_replace raw)) = Except.ok none ∨
      c.complete (editMessages i (decode_utf8_replace raw)) = Except.ok (some ""))
    (herr : ∃ m,
      cerr.complete (editMessages i (decode_utf8_replace raw)) = Except.error m) :
    edit_file_with_instructions (some c) (decode_utf8_replace raw) i = "" ∧
    edit_file_with_instructions (some c) (decode_utf8_replace raw) i =
      edit_file_with_instructions (some cerr) (decode_utf8_replace raw) i ∧
    edit_zip_with_instructions (some c) [e] i = [] ∧
    edit_zip_with_instructions (some cerr) [e] i = [] := by
  have hfc : edit_file_with_instructions (some c) (decode_utf8_replace raw) i = "" := by
    rcases hc with h | h <;> rw [edit_file_call c _ i hne hlen, h] <;> rfl
  obtain ⟨m, hm⟩ := herr
  have hfe : edit_file_with_instructions (some cerr) (decode_utf8_replace raw) i = "" := by
    rw [edit_file_call cerr _ i hne hlen, hm]
  have hzip : ∀ cl : Client,
      edit_file_with_instructions (some cl) (decode_utf8_replace raw) i = "" →
      edit_zip_with_instructions (some cl) [e] i = [] := by
    intro cl hcl
    rw [show edit_zip_with_instructions (some cl) [e] i =
        edit_zip_go (some cl) i [e] [] from rfl]
    rw [edit_zip_go_cons_ok (some cl) i e [] [] raw hd hr, if_pos hcl]
    rfl
  exact ⟨hfc, hfc.trans hfe.symm, hzip c hfc, hzip cerr hfe⟩

/-- Witness for C10: a client answering with empty content and a client
whose call raises produce the same observable outcome on the same entry:
an empty rewrite and an empty batch result. -/
theorem claim_C10_witness :
    edit_file_with_instructions (some emptyClient)
      (decode_utf8_replace [104, 105]) "i" = "" ∧
    edit_file_with_instructions (some emptyClient)
      (decode_utf8_replace [104, 105]) "i" =
      edit_file_with_instructions (some errClient)
        (decode_utf8_replace [104, 105]) "i" ∧
    edit_zip_with_instructions (some emptyClient)
      [⟨"f.txt", false, Except.ok [104, 105]⟩] "i" = [] ∧
    edit_zip_with_instructions (some errClient)
      [⟨"f.txt", false, Except.ok [104, 105]⟩] "i" = [] :=
  claim_C10 emptyClient errClient "i" ⟨"f.txt", false, Except.ok [104, 105]⟩
    [104, 105] rfl rfl (by decide) (by decide) (Or.inr rfl) ⟨"network", rfl⟩

end MyChatBot
